import Mathlib

/-!
# Verification of the Gouji rule engine

Shallow embedding of the `gouji` package (the final, de-duplicated variant of
the six-player climbing card game engine): `constants.py`, `core/card_patterns.py`,
`systems/deal_system.py` and `systems/play_system.py`, together with theorems
settling the behavioural claims about the pattern engine, the dealer and the
per-trick turn state machine.
-/

namespace Gouji

/-- `Suit` enumeration from `constants.py`. -/
inductive Suit where
  | HEART
  | DIAMOND
  | CLUB
  | SPADE
  | JOKER
  deriving DecidableEq, Repr

/-- `Rank` enumeration from `constants.py`, in declaration order
(`ACE` first, jokers last). -/
inductive Rank where
  | ACE
  | TWO
  | THREE
  | FOUR
  | FIVE
  | SIX
  | SEVEN
  | EIGHT
  | NINE
  | TEN
  | JACK
  | QUEEN
  | KING
  | RED_JOKER
  | BLACK_JOKER
  deriving DecidableEq, Repr, Fintype

namespace Rank

/-- `Rank.get_value` from `constants.py`: the gouji comparison ladder
3..10, J, Q, K, A, 2, small joker, big joker mapped onto 3..17. -/
def get_value : Rank → Nat
  | THREE => 3
  | FOUR => 4
  | FIVE => 5
  | SIX => 6
  | SEVEN => 7
  | EIGHT => 8
  | NINE => 9
  | TEN => 10
  | JACK => 11
  | QUEEN => 12
  | KING => 13
  | ACE => 14
  | TWO => 15
  | BLACK_JOKER => 16
  | RED_JOKER => 17

/-- `Rank.__lt__` from `constants.py`: comparison delegates to `get_value`. -/
def rank_lt (a b : Rank) : Bool :=
  get_value a < get_value b

/-- Position of a rank in the Python `Enum` declaration order
(`ACE = 0`, `TWO = 1`, …, `BLACK_JOKER = 14`). -/
def declIndex : Rank → Nat
  | ACE => 0
  | TWO => 1
  | THREE => 2
  | FOUR => 3
  | FIVE => 4
  | SIX => 5
  | SEVEN => 6
  | EIGHT => 7
  | NINE => 8
  | TEN => 9
  | JACK => 10
  | QUEEN => 11
  | KING => 12
  | RED_JOKER => 13
  | BLACK_JOKER => 14

end Rank

/-- The fixed ladder 3 < 4 < … < 10 < J < Q < K < A < 2 < SmallJoker < BigJoker
(spec §3 "Rank"). -/
def ladder : List Rank :=
  [Rank.THREE, Rank.FOUR, Rank.FIVE, Rank.SIX, Rank.SEVEN, Rank.EIGHT,
   Rank.NINE, Rank.TEN, Rank.JACK, Rank.QUEEN, Rank.KING, Rank.ACE,
   Rank.TWO, Rank.BLACK_JOKER, Rank.RED_JOKER]

/-- `Card` from `components/card_components.py`: suit, rank and the id of the
originating deck (four merged decks). -/
structure Card where
  suit : Suit
  rank : Rank
  deck_id : Nat
  deriving DecidableEq, Repr

/-- `CardPatternChecker.can_beat` from `core/card_patterns.py`.
`none` stands for Python `previous_cards is None`. -/
def can_beat (new_cards : List Card) (previous_cards : Option (List Card)) : Bool :=
  match previous_cards with
  | none => true
  | some prev =>
    -- 如果previous_cards为空，任何牌组都可以出
    if prev.length = 0 then true
    -- 牌数必须相同
    else if new_cards.length ≠ prev.length then false
    else
      match new_cards, prev with
      | nc :: ncs, pc :: pcs =>
        -- 检查新牌是否都是同一点数 (all ranks equal to the first one)
        if ¬ (ncs.all fun c => c.rank == nc.rank) then false
        -- 检查前一手牌是否都是同一点数
        else if ¬ (pcs.all fun c => c.rank == pc.rank) then false
        -- 比较点数大小
        else Rank.get_value pc.rank < Rank.get_value nc.rank
      | _, _ => false  -- unreachable: both lists are nonempty here

/-- Grouping of a hand by rank, preserving Python `dict` insertion order
(the `rank_groups` loop shared by `find_all_beating_combinations` and
`_find_all_valid_plays`). -/
def groupByRank (cards : List Card) : List (Rank × List Card) :=
  cards.foldl
    (fun groups card =>
      if groups.any fun g => g.1 == card.rank then
        groups.map fun g => if g.1 == card.rank then (g.1, g.2 ++ [card]) else g
      else
        groups ++ [(card.rank, [card])])
    []

/-- `CardPatternChecker._find_all_valid_plays` from `core/card_patterns.py`:
for every rank group of size `n`, the prefixes of sizes `1..n`. -/
def find_all_valid_plays (hand_cards : List Card) : List (List Card) :=
  if hand_cards.isEmpty then []
  else
    (groupByRank hand_cards).flatMap fun g =>
      (List.range g.2.length).map fun k => g.2.take (k + 1)

/-- `CardPatternChecker.find_all_beating_combinations` from
`core/card_patterns.py`. -/
def find_all_beating_combinations (hand_cards : List Card)
    (target_cards : Option (List Card)) : List (List Card) :=
  match target_cards with
  | none => find_all_valid_plays hand_cards
  | some t =>
    if t.length = 0 then find_all_valid_plays hand_cards
    else
      (groupByRank hand_cards).flatMap fun g =>
        ((List.range g.2.length).map fun k => g.2.take (k + 1)).filter
          fun comb => can_beat comb (some t)

/-- `DeckSystem.create_deck` from `systems/deck_system.py`: four 54-card decks
(4 suits × 13 non-joker ranks, plus the two jokers), tagged with `deck_id`. -/
def create_deck : List Card :=
  (List.range 4).flatMap fun deck_id =>
    ([Suit.HEART, Suit.DIAMOND, Suit.CLUB, Suit.SPADE].flatMap fun suit =>
      (ladder.filter fun r => ¬ (r == Rank.RED_JOKER) ∧ ¬ (r == Rank.BLACK_JOKER)).map
        fun rank => Card.mk suit rank deck_id)
    ++ [Card.mk Suit.JOKER Rank.RED_JOKER deck_id, Card.mk Suit.JOKER Rank.BLACK_JOKER deck_id]

/-- The per-player slices of `DealSystem.deal_all_cards` from
`systems/deal_system.py`: player `i` receives `deck[i*per : (i+1)*per]`
with `per = len(deck) // 6`, provided the slice stays in range
(otherwise that hand is left empty, with a warning in the source). -/
def deal_hands (deck : List Card) : List (List Card) :=
  let cards_per_player := deck.length / 6
  (List.range 6).map fun i =>
    if i * cards_per_player + cards_per_player ≤ deck.length then
      (deck.drop (i * cards_per_player)).take cards_per_player
    else []

/-- `DealSystem.deal_all_cards`: the six hands and the emptied deck
(`self.deck_system.deck = []` at the end of the method). -/
def deal_all_cards (deck : List Card) : List (List Card) × List Card :=
  (deal_hands deck, [])

/-- Game phases of `GameStateComponent` from `components/game_components.py`
(the strings `"dealing"`, `"playing"`, `"game_over"`). -/
inductive Phase where
  | dealing
  | playing
  | game_over
  deriving DecidableEq, Repr

/-- `GameStateComponent` from `components/game_components.py`.
`players_without_cards` is a Python `set`, `rankings` a list;
`human_player_id` keeps its Python type (an `int`, `-1` by default). -/
structure GameState where
  phase : Phase
  current_player_id : Nat
  human_player_id : Int
  players_without_cards : Finset Nat
  rankings : List Nat
  deriving DecidableEq

/-- The mutable attributes of `PlaySystem` (`play_system.py`, `__init__`). -/
structure PlayState where
  last_played_cards : Option (List Card)
  consecutive_passes : Nat
  last_effective_player_id : Option Nat
  deriving DecidableEq, Repr

/-- The whole mutable world the play system acts on: the game-state component,
the processor's own attributes and the six `Hand` components
(`hands` indexed by player id). -/
structure World where
  gs : GameState
  ps : PlayState
  hands : List (List Card)
  deriving DecidableEq

/-- One iteration of the `while next_id in players_without_cards` loop of
`PlaySystem.find_next_player_with_cards`.  The fuel `6` suffices: the loop is
only entered when fewer than five players are finished, so one of the six seats
is always free within six probes. -/
def find_next_loop (without : Finset Nat) : Nat → Nat → Nat
  | 0, next_id => next_id
  | fuel + 1, next_id =>
    if next_id ∈ without then find_next_loop without fuel ((next_id + 1) % 6)
    else next_id

/-- `PlaySystem.find_next_player_with_cards` from `play_system.py`. -/
def find_next_player_with_cards (without : Finset Nat) (current : Nat) : Nat :=
  let next_id := (current + 1) % 6
  if 5 ≤ without.card then
    match (List.range 6).find? fun i => decide (i ∉ without) with
    | some i => i
    | none => next_id
  else
    find_next_loop without 6 next_id

/-- `game_state.current_player_id = self.find_next_player_with_cards(game_state)`
(lines 115, 223 and 311 of `play_system.py`). -/
def advance_current (w : World) : World :=
  { w with gs := { w.gs with
      current_player_id :=
        find_next_player_with_cards w.gs.players_without_cards w.gs.current_player_id } }

/-- The accepted-pass bookkeeping, duplicated verbatim in the human path
(lines 102-112) and the AI path (lines 256-264) of `play_system.py`:
increment `consecutive_passes`; once it reaches `active_players - 1`
(with `active_players = 6 - len(players_without_cards)`), clear the
reference play and reset the counter. -/
def pass_update (w : World) : PlayState :=
  let cp := w.ps.consecutive_passes + 1
  let active_players := 6 - w.gs.players_without_cards.card
  if active_players - 1 ≤ cp then
    { w.ps with last_played_cards := none, consecutive_passes := 0 }
  else
    { w.ps with consecutive_passes := cp }

/-- `PlaySystem.find_cards_by_rank`: the first `count` cards of the given rank,
in hand order.  (The source compares `get_rank_display()` strings, which are
distinct per rank, so comparing ranks is equivalent.) -/
def find_cards_by_rank (cards : List Card) (rank : Rank) (count : Nat) : List Card :=
  (cards.filter fun c => c.rank == rank).take count

/-- Removal of the played cards from the hand:
`for card in current_played_cards: hand.cards.remove(card)`
(lines 182-183 and 272-273).  Python removes by object identity here; since the
played combination is always a sublist of the hand, erasing the first
structurally-equal occurrence is equivalent. -/
def remove_cards (hand played : List Card) : List Card :=
  played.foldl (fun h c => h.erase c) hand

/-- The `Hand` component of player `pid` (`esper.component_for_entity(…, Hand)`). -/
def handAt (w : World) (pid : Nat) : List Card :=
  w.hands.getD pid []

/-- The accepted-play effects, shared (line for line) by the human path
(lines 181-224) and the AI path (lines 269-312) of `play_system.py`:
remove the cards from the hand, install the new reference play, reset the pass
counter, record the effective player, then either record a finished player
(ending the game when five players are done — the early `return` skips the
rotation) or rotate to the next player holding cards.
The `if played.isEmpty` guard mirrors the human path's
`if current_played_cards:`; on the AI path the assignment is unconditional, but
AI combinations are never empty so the two coincide. -/
def apply_play (w : World) (pid : Nat) (played : List Card) : World :=
  let hand := handAt w pid
  let hand' := remove_cards hand played
  let ps' : PlayState :=
    { last_played_cards := some played
      consecutive_passes := 0
      last_effective_player_id :=
        if played.isEmpty then w.ps.last_effective_player_id else some pid }
  let w1 : World := { w with ps := ps', hands := w.hands.set pid hand' }
  if hand'.isEmpty then
    let gs1 : GameState := { w1.gs with
        players_without_cards := insert pid w1.gs.players_without_cards
        rankings := w1.gs.rankings ++ [pid] }
    if gs1.players_without_cards.card = 5 then
      { w1 with gs := { gs1 with phase := Phase.game_over } }
    else
      advance_current { w1 with gs := gs1 }
  else
    advance_current w1

/-- A structured human turn intent: an explicit pass, or "play `count` cards of
rank `rank`" (the core meaning of the token inputs `"Q"`, `"Q Q"`, `"QQ"`, …;
tokenization itself is presentation-layer). -/
inductive HumanDecision where
  | pass
  | play (rank : Rank) (count : Nat)
  deriving DecidableEq, Repr

/-- Outcome of submitting one human decision: `rejected w` means the input was
refused (`continue` in the source input loop) and the unchanged world waits for
a resubmission; `accepted w'` means the turn was applied. -/
inductive TurnResult where
  | rejected (w : World)
  | accepted (w : World)
  deriving DecidableEq

/-- One round of the input loop of `PlaySystem.handle_human_turn`
(`play_system.py` lines 57-236) on a structured decision:
* a pass is refused while the player owns the trick (line 98), otherwise the
  shared pass bookkeeping runs and play rotates (lines 102-118);
* a play is refused when the hand lacks `count` cards of the rank
  (lines 130-173) or when it cannot beat the reference play (lines 176-179);
  otherwise the shared accepted-play effects run (lines 181-230).
The guard on `human_player_id` mirrors the `human_entity is not None` check
(players `0..5` are the only entities). -/
def handle_human_decision (w : World) (d : HumanDecision) : TurnResult :=
  let hid := w.gs.human_player_id.toNat
  if w.gs.human_player_id < 0 ∨ 6 ≤ hid then TurnResult.rejected w
  else
    match d with
    | HumanDecision.pass =>
      -- 如果当前玩家是最后一个有效出牌的玩家，不允许pass
      if w.ps.last_effective_player_id == some w.gs.current_player_id then
        TurnResult.rejected w
      else
        TurnResult.accepted (advance_current { w with ps := pass_update w })
    | HumanDecision.play rank count =>
      let hand := handAt w hid
      if count = 0 then TurnResult.rejected w  -- 处理空输入
      else if (hand.filter fun c => c.rank == rank).length < count then
        TurnResult.rejected w  -- 您没有count张rank牌
      else
        let played := find_cards_by_rank hand rank count
        match w.ps.last_played_cards with
        | some prev =>
          if ¬ can_beat played (some prev) then
            TurnResult.rejected w  -- 您出的牌不能大过上一手牌
          else
            TurnResult.accepted (apply_play w hid played)
        | none =>
          TurnResult.accepted (apply_play w hid played)

/-- `PlaySystem.handle_ai_turn` from `play_system.py` (lines 238-316).
`pick` resolves the `random.choice` among the beating combinations.
The `current_player_id < 6` guard mirrors `ai_entity is not None`. -/
def handle_ai_turn (w : World) (pick : Nat) : World :=
  if w.gs.current_player_id < 6 then
    let pid := w.gs.current_player_id
    let hand := handAt w pid
    if hand.isEmpty then
      advance_current w
    else
      let beating_combinations :=
        find_all_beating_combinations hand w.ps.last_played_cards
      if beating_combinations.isEmpty then
        -- 如果没有能压过的牌，选择PASS
        advance_current { w with ps := pass_update w }
      else
        -- 随机选择一个能压过的组合
        apply_play w pid (beating_combinations.getD (pick % beating_combinations.length) [])
  else w

/-- `PlaySystem.process` (lines 29-55): in the playing phase, first the
end-of-game check (five finished players end the game at once, before any
further turn), then dispatch to the human or the AI handler.  On the human
branch a rejected decision leaves the world unchanged (the source keeps
prompting inside `handle_human_turn`). -/
def process_tick (w : World) (d : HumanDecision) (pick : Nat) : World :=
  if w.gs.phase == Phase.playing then
    if w.gs.players_without_cards.card = 5 then
      { w with gs := { w.gs with phase := Phase.game_over } }
    else if (w.gs.current_player_id : Int) == w.gs.human_player_id then
      match handle_human_decision w d with
      | TurnResult.accepted w' => w'
      | TurnResult.rejected w' => w'
    else
      handle_ai_turn w pick
  else w

/-- The nondeterministic one-tick transition of the playing phase: the
end-of-game transition, an accepted human decision, or an AI turn with an
arbitrary choice among the beating combinations. -/
inductive Step : World → World → Prop
  | game_over_check (w : World)
      (h1 : w.gs.phase = Phase.playing)
      (h2 : w.gs.players_without_cards.card = 5) :
      Step w { w with gs := { w.gs with phase := Phase.game_over } }
  | human (w w' : World) (d : HumanDecision)
      (h1 : w.gs.phase = Phase.playing)
      (h2 : w.gs.players_without_cards.card ≠ 5)
      (h3 : (w.gs.current_player_id : Int) = w.gs.human_player_id)
      (h4 : handle_human_decision w d = TurnResult.accepted w') :
      Step w w'
  | ai (w : World) (pick : Nat)
      (h1 : w.gs.phase = Phase.playing)
      (h2 : w.gs.players_without_cards.card ≠ 5)
      (h3 : (w.gs.current_player_id : Int) ≠ w.gs.human_player_id) :
      Step w (handle_ai_turn w pick)

/-- A freshly dealt game, as left by `DealSystem.process` and
`PlaySystem.__init__`: playing phase, a starting player in `[0,6)`, no finished
player, no reference play, and a nonempty hand for everybody. -/
def Init (w : World) : Prop :=
  w.gs.phase = Phase.playing ∧
  w.gs.current_player_id < 6 ∧
  w.gs.players_without_cards = ∅ ∧
  w.gs.rankings = [] ∧
  w.ps.last_played_cards = none ∧
  w.ps.consecutive_passes = 0 ∧
  w.ps.last_effective_player_id = none ∧
  ∀ q, q < 6 → handAt w q ≠ []

/-- Worlds reachable from some freshly dealt game by ticks of the play system. -/
def Reachable (w : World) : Prop :=
  ∃ w0, Init w0 ∧ Relation.ReflTransGen Step w0 w

/-! ## Spec-side notions used to state the claims -/

/-- "All cards of the list share a single rank" (spec §4.3). -/
def sameRankP (cards : List Card) : Prop :=
  cards.Pairwise fun a b => a.rank = b.rank

instance (cards : List Card) : Decidable (sameRankP cards) :=
  inferInstanceAs (Decidable (cards.Pairwise _))

/-- The rank value of a play: the value of its (shared) rank, read off the
first card; `0` for the empty list. -/
def playRankValue (cards : List Card) : Nat :=
  match cards with
  | [] => 0
  | c :: _ => Rank.get_value c.rank

/-- The prefix sub-multisets generated from the rank groups of a hand, as the
spec describes them: for every rank group of size `n`, the `n` prefixes of
sizes `1..n` (spec §4.3 `findAllBeatingCombinations`). -/
def generatedPrefixes (hand : List Card) : List (List Card) :=
  (groupByRank hand).flatMap fun g =>
    (List.range g.2.length).map fun k => g.2.take (k + 1)

/-- What the spec says a single accepted pass does to the play state
(spec §4.4 step 4, claim C5): the incremented counter is kept and the
reference play untouched, unless the increment reaches
`activePlayers - 1`, in which case the reference play is cleared and the
counter reset. -/
def pass_spec (w : World) (ps' : PlayState) : Prop :=
  if 6 - w.gs.players_without_cards.card - 1 ≤ w.ps.consecutive_passes + 1 then
    ps'.last_played_cards = none ∧ ps'.consecutive_passes = 0
  else
    ps'.last_played_cards = w.ps.last_played_cards ∧
    ps'.consecutive_passes = w.ps.consecutive_passes + 1

/-! ## The turn invariant behind claim C2 -/

/-- Forward distance from seat `a` to seat `b` around the 6-seat rotation. -/
def fwdDist (a b : Nat) : Nat := (b + 6 - a) % 6

/-- Number of still-active seats strictly between seat `e` and seat `c` in
rotation order: exactly the players who have passed since the trick owner `e`
made the reference play, once the turn has rotated to `c`. -/
def passedCount (e c : Nat) (without : Finset Nat) : Nat :=
  ((List.range 6).filter fun q =>
    decide (q ∉ without) && decide (0 < fwdDist e q) && decide (fwdDist e q < fwdDist e c)).length

/-- The inductive invariant of the playing phase: seats are in range, the
current player still holds cards, at most four players are finished, and —
the crucial part — while a reference play stands, the turn is never at the
trick owner's seat and `consecutive_passes` counts exactly the active seats
the rotation has moved past since the owner played. -/
def Inv (w : World) : Prop :=
  w.gs.current_player_id < 6 ∧
  w.gs.players_without_cards ⊆ Finset.range 6 ∧
  (w.gs.phase = Phase.playing →
    w.gs.current_player_id ∉ w.gs.players_without_cards ∧
    w.gs.players_without_cards.card ≤ 4 ∧
    (∀ q, q < 6 → q ∉ w.gs.players_without_cards → handAt w q ≠ []) ∧
    (∀ lp, w.ps.last_played_cards = some lp →
      ∃ e, w.ps.last_effective_player_id = some e ∧ e < 6 ∧
        w.gs.current_player_id ≠ e ∧
        w.ps.consecutive_passes = passedCount e w.gs.current_player_id w.gs.players_without_cards))

/-! ## Concrete inputs used by witnesses and counterexamples -/

/-- ♥5 from deck 0. -/
def heart5a : Card := Card.mk Suit.HEART Rank.FIVE 0

/-- ♥5 from deck 1. -/
def heart5b : Card := Card.mk Suit.HEART Rank.FIVE 1

/-- ♥3 from deck 0. -/
def heart3 : Card := Card.mk Suit.HEART Rank.THREE 0

/-- ♦3 from deck 0. -/
def diamond3 : Card := Card.mk Suit.DIAMOND Rank.THREE 0

/-- ♣3 from deck 0. -/
def club3 : Card := Card.mk Suit.CLUB Rank.THREE 0

/-- ♠4 from deck 0. -/
def spade4 : Card := Card.mk Suit.SPADE Rank.FOUR 0

/-- ♥4 from deck 1. -/
def heart4 : Card := Card.mk Suit.HEART Rank.FOUR 1

/-- A hand with rank-group sizes {3: 3, 4: 2}, as in the spec's
`findAllBeatingCombinations` example. -/
def exampleHand : List Card := [heart3, diamond3, club3, spade4, heart4]

/-- A 216-card deck of pairwise distinct cards, standing for the shuffled deck. -/
def witnessDeck : List Card :=
  (List.range 216).map fun n => Card.mk Suit.HEART Rank.ACE n

/-- A freshly dealt all-AI game about to be played out for the C2 witness:
player 0 holds a pair of fives, everyone else a single three. -/
def W0 : World :=
  { gs := { phase := Phase.playing, current_player_id := 0, human_player_id := -1,
            players_without_cards := ∅, rankings := [] }
    ps := { last_played_cards := none, consecutive_passes := 0,
            last_effective_player_id := none }
    hands := [[heart5a, heart5b], [heart3], [heart3], [heart3], [heart3], [heart3]] }

/-- After player 0's opening play of one five. -/
def W1 : World := handle_ai_turn W0 0

/-- After player 1's forced pass. -/
def W2 : World := handle_ai_turn W1 0

/-- After player 2's forced pass. -/
def W3 : World := handle_ai_turn W2 0

/-- After player 3's forced pass. -/
def W4 : World := handle_ai_turn W3 0

/-- After player 4's forced pass. -/
def W5 : World := handle_ai_turn W4 0

/-- After player 5's forced pass, which resets the trick: the turn is back at
the owner, seat 0, with the reference play cleared. -/
def W6 : World := handle_ai_turn W5 0

/-- A playing-phase world in which five players have already finished: only
player 5 still holds a card, and the rankings list holds the five finishers. -/
def gameOverWorld : World :=
  { gs := { phase := Phase.playing, current_player_id := 5, human_player_id := -1,
            players_without_cards := {0, 1, 2, 3, 4}, rankings := [0, 1, 2, 3, 4] }
    ps := { last_played_cards := none, consecutive_passes := 0,
            last_effective_player_id := some 4 }
    hands := [[], [], [], [], [], [heart3]] }

/-- A two-human-seat world where seat 0 (the human, to move) owns the trick. -/
def ownerWorld : World :=
  { gs := { phase := Phase.playing, current_player_id := 0, human_player_id := 0,
            players_without_cards := ∅, rankings := [] }
    ps := { last_played_cards := some [heart5a], consecutive_passes := 0,
            last_effective_player_id := some 0 }
    hands := [[heart3], [heart3], [heart3], [heart3], [heart3], [heart3]] }

/-- A world where the human at seat 0 is to move, does not own the trick, and
holds a single three against a played five. -/
def humanTurnWorld : World :=
  { gs := { phase := Phase.playing, current_player_id := 0, human_player_id := 0,
            players_without_cards := ∅, rankings := [] }
    ps := { last_played_cards := some [heart5a], consecutive_passes := 0,
            last_effective_player_id := some 3 }
    hands := [[heart3, heart4], [heart3], [heart3], [heart3], [heart3], [heart5b]] }

/-- An AI-to-move world where seat 1 cannot beat the reference five. -/
def aiPassWorld : World :=
  { gs := { phase := Phase.playing, current_player_id := 1, human_player_id := -1,
            players_without_cards := ∅, rankings := [] }
    ps := { last_played_cards := some [heart5a], consecutive_passes := 0,
            last_effective_player_id := some 0 }
    hands := [[heart5b], [heart3], [heart3], [heart3], [heart3], [heart3]] }

/-! ## Helper lemmas for the pattern engine -/

lemma all_rank_eq_iff_pairwise (c : Card) (cs : List Card) :
    (cs.all fun d => d.rank == c.rank) = true ↔
      (c :: cs).Pairwise fun a b => a.rank = b.rank := by
  induction cs with
  | nil => simp
  | cons d ds ih =>
    simp only [List.all_cons, Bool.and_eq_true, beq_iff_eq, List.pairwise_cons,
      List.mem_cons, forall_eq_or_imp] at *
    constructor
    · rintro ⟨hd, hds⟩
      obtain ⟨hc, hp⟩ := ih.mp hds
      refine ⟨⟨hd.symm, hc⟩, fun b hb => ?_, hp⟩
      rw [hd]
      exact hc b hb
    · rintro ⟨⟨h1, h2⟩, _, hp⟩
      exact ⟨h1.symm, ih.mpr ⟨h2, hp⟩⟩

lemma filter_true_of_all {p : List Card → Bool} (l : List (List Card))
    (h : ∀ x, p x = true) : l.filter p = l := by
  induction l with
  | nil => rfl
  | cons a as ih => simp [List.filter_cons, h, ih]

lemma find_all_valid_plays_eq (hand : List Card) :
    find_all_valid_plays hand = generatedPrefixes hand := by
  cases hand with
  | nil => rfl
  | cons c cs => rfl

lemma filter_flatMap_eq {α : Type} (l : List α) (f : α → List (List Card))
    (p : List Card → Bool) :
    (l.flatMap f).filter p = l.flatMap fun a => (f a).filter p := by
  induction l with
  | nil => rfl
  | cons a as ih => simp [List.flatMap_cons, List.filter_append, ih]

/-! ## Claim C3: `can_beat` is a total predicate with the spec's meaning -/

/-- C3: `can_beat(candidate, reference)` is total and returns `true` exactly
when the reference is absent or empty, or the two sides have equal length, each
side is single-rank, and the candidate's rank value strictly exceeds the
reference's; moreover `can_beat(P, P)` is `false` for every nonempty `P`. -/
theorem claim_C3 (cand P : List Card) (ref : Option (List Card)) (hP : P ≠ []) :
    (can_beat cand ref = true ↔
      match ref with
      | none => True
      | some prev =>
        prev = [] ∨
          (cand.length = prev.length ∧ sameRankP cand ∧ sameRankP prev ∧
           playRankValue prev < playRankValue cand)) ∧
    can_beat P (some P) = false := by
  constructor
  · cases ref with
    | none => simp [can_beat]
    | some prev =>
      cases prev with
      | nil => simp [can_beat]
      | cons p ps =>
        cases cand with
        | nil => simp [can_beat]
        | cons n ns =>
          by_cases hlen : (n :: ns).length = (p :: ps).length
          · by_cases h1 : (ns.all fun c => c.rank == n.rank) = true
            · by_cases h2 : (ps.all fun c => c.rank == p.rank) = true
              · have e1 := (all_rank_eq_iff_pairwise n ns).mp h1
                have e2 := (all_rank_eq_iff_pairwise p ps).mp h2
                simp [can_beat, hlen, h1, h2, sameRankP, e1, e2, playRankValue]
              · have e2 := (all_rank_eq_iff_pairwise p ps).not.mp (by simpa using h2)
                simp [can_beat, hlen, h1, h2, sameRankP, e2, playRankValue]
            · have e1 := (all_rank_eq_iff_pairwise n ns).not.mp (by simpa using h1)
              simp [can_beat, hlen, h1, sameRankP, e1, playRankValue]
          · have hlen' : ns.length ≠ ps.length := by
              simpa using hlen
            simp [can_beat, hlen, hlen']
  · cases P with
    | nil => exact absurd rfl hP
    | cons p ps =>
      by_cases h : (ps.all fun c => c.rank == p.rank) = true
      · simp [can_beat, h]
      · simp [can_beat, h]

/-- Witness for C3 at a concrete nonempty play. -/
theorem claim_C3_witness :
    ([heart5a] : List Card) ≠ [] ∧ can_beat [heart5a] (some [heart5a]) = false :=
  ⟨by decide, (claim_C3 [heart5a] [heart5a] (some [spade4]) (by decide)).2⟩

/-! ## Claim C4: `find_all_beating_combinations` returns exactly the beating
rank-group prefixes -/

/-- C4: the returned combinations are exactly the generated rank-group prefixes
that satisfy `can_beat` against the reference; with an absent reference every
generated prefix is returned, and a {3:3, 4:2} hand yields exactly the five
combinations of the spec's example. -/
theorem claim_C4 (hand : List Card) (ref : Option (List Card)) :
    find_all_beating_combinations hand ref
      = (generatedPrefixes hand).filter (fun comb => can_beat comb ref) ∧
    find_all_beating_combinations hand none = generatedPrefixes hand ∧
    find_all_beating_combinations exampleHand none
      = [[heart3], [heart3, diamond3], [heart3, diamond3, club3],
         [spade4], [spade4, heart4]] := by
  have hnone : find_all_beating_combinations hand none = generatedPrefixes hand := by
    show find_all_valid_plays hand = generatedPrefixes hand
    exact find_all_valid_plays_eq hand
  refine ⟨?_, hnone, by decide⟩
  cases ref with
  | none =>
    rw [hnone, filter_true_of_all]
    intro x
    rfl
  | some t =>
    cases t with
    | nil =>
      rw [show find_all_beating_combinations hand (some []) = find_all_valid_plays hand from rfl,
        find_all_valid_plays_eq, filter_true_of_all]
      intro x
      rfl
    | cons x xs =>
      rw [show find_all_beating_combinations hand (some (x :: xs))
            = (groupByRank hand).flatMap fun g =>
                ((List.range g.2.length).map fun k => g.2.take (k + 1)).filter
                  (fun comb => can_beat comb (some (x :: xs))) from rfl,
        generatedPrefixes, filter_flatMap_eq]

/-! ## Claim C9: the rank ladder -/

/-- C9: `get_value` is injective over the 15 ranks, realizes exactly the ladder
3 < 4 < … < 10 < J < Q < K < A < 2 < SmallJoker < BigJoker with the numeric
values 3..17 (so `__lt__` agrees with ladder position), and this order differs
from the enum declaration order, which begins with `ACE`. -/
theorem claim_C9 :
    (∀ r1 r2 : Rank, r1 ≠ r2 → Rank.get_value r1 ≠ Rank.get_value r2) ∧
    (∀ i, ∀ h : i < ladder.length, Rank.get_value (ladder.get ⟨i, h⟩) = i + 3) ∧
    (∀ i, ∀ hi : i < ladder.length, ∀ j, ∀ hj : j < ladder.length,
      (i < j ↔ Rank.rank_lt (ladder.get ⟨i, hi⟩) (ladder.get ⟨j, hj⟩) = true)) ∧
    ¬ (∀ r1 r2 : Rank, Rank.declIndex r1 < Rank.declIndex r2 →
        Rank.get_value r1 < Rank.get_value r2) := by
  decide

/-! ## Claim C10: an absent or empty reference accepts anything -/

/-- C10: with a `None` or empty reference, `can_beat` returns `true` for every
candidate whatsoever — the candidate is not validated at all. -/
theorem claim_C10 (cand : List Card) :
    can_beat cand none = true ∧ can_beat cand (some []) = true :=
  ⟨rfl, rfl⟩

/-! ## Claim C8: dealing partitions the deck into six 36-card slices -/

lemma flatten_slices (l : List Card) (n : Nat) :
    ∀ k, ((List.range k).map fun i => (l.drop (i * n)).take n).flatten = l.take (k * n) := by
  intro k
  induction k with
  | zero => simp
  | succ k ih =>
    rw [List.range_succ, List.map_append, List.flatten_append, ih]
    rw [Nat.succ_mul, List.take_add]
    simp

lemma deal_hands_slices (deck : List Card) (hlen : deck.length = 216) :
    deal_hands deck = (List.range 6).map fun i => (deck.drop (i * 36)).take 36 := by
  simp only [deal_hands, hlen]
  apply List.map_congr_left
  intro i hi
  rw [if_pos]
  have : i < 6 := List.mem_range.mp hi
  omega

/-- C8: with the 216-card deck, player `i` receives exactly the slice
`[i*36, (i+1)*36)`, so each of the six hands has 36 cards, the hands
concatenate back to the whole deck (hence are pairwise disjoint whenever the
deck has no duplicate card), and the deck is emptied afterwards. -/
theorem claim_C8 (deck : List Card) (hlen : deck.length = 216) :
    (∀ i, i < 6 →
      (deal_hands deck).getD i [] = (deck.drop (i * 36)).take 36 ∧
      ((deal_hands deck).getD i []).length = 36) ∧
    (deal_hands deck).length = 6 ∧
    (deal_hands deck).flatten = deck ∧
    (deal_all_cards deck).2 = [] ∧
    (deck.Nodup → (deal_hands deck).Pairwise List.Disjoint) := by
  have hdh := deal_hands_slices deck hlen
  have hflat : (deal_hands deck).flatten = deck := by
    rw [hdh, flatten_slices]
    rw [show (6 * 36 : Nat) = 216 from rfl, ← hlen, List.take_length]
  refine ⟨?_, ?_, hflat, rfl, ?_⟩
  · intro i hi
    have hget : (deal_hands deck).getD i [] = (deck.drop (i * 36)).take 36 := by
      rw [hdh, List.getD_eq_getElem?_getD, List.getElem?_map, List.getElem?_range hi]
      rfl
    refine ⟨hget, ?_⟩
    rw [hget, List.length_take, List.length_drop, hlen]
    omega
  · rw [hdh]
    simp
  · intro hnd
    have : (deal_hands deck).flatten.Nodup := by
      rw [hflat]
      exact hnd
    exact (List.nodup_flatten.mp this).2

/-- Witness for C8 on a concrete 216-card duplicate-free deck. -/
theorem claim_C8_witness :
    witnessDeck.length = 216 ∧ (deal_hands witnessDeck).flatten = witnessDeck ∧
    (deal_hands witnessDeck).Pairwise List.Disjoint := by
  have hlen : witnessDeck.length = 216 := by
    simp [witnessDeck]
  have hnd : witnessDeck.Nodup := by
    refine List.Nodup.map ?_ (List.nodup_range 216)
    intro a b h
    simpa using h
  exact ⟨hlen, (claim_C8 witnessDeck hlen).2.2.1, (claim_C8 witnessDeck hlen).2.2.2.2 hnd⟩

/-! ## Claim C1: what the step with five finished players actually does -/

/-- Counterexample to C1 as stated: in a playing-phase world with five finished
players, the processing step sets the phase to `game_over` but does **not**
append the remaining player's id — the rankings list keeps length 5, never 6. -/
theorem claim_C1_counterexample :
    (process_tick gameOverWorld HumanDecision.pass 0).gs.phase = Phase.game_over ∧
    (process_tick gameOverWorld HumanDecision.pass 0).gs.rankings = [0, 1, 2, 3, 4] ∧
    (process_tick gameOverWorld HumanDecision.pass 0).gs.rankings.length ≠ 6 := by
  decide

/-- C1 (amended): whenever the number of finished players has reached 5 at the
start of a processing step in the playing phase, that step only switches the
phase to `game_over` and processes no turn — in particular the rankings list is
left at length 5 and the remaining player's id is *not* appended (consumers
recompute it implicitly). -/
theorem claim_C1 (w : World) (d : HumanDecision) (pick : Nat)
    (hph : w.gs.phase = Phase.playing)
    (hcard : w.gs.players_without_cards.card = 5) :
    process_tick w d pick = { w with gs := { w.gs with phase := Phase.game_over } } := by
  simp [process_tick, hph, hcard]

/-- Witness for the amended C1 at a concrete five-finished world. -/
theorem claim_C1_witness :
    gameOverWorld.gs.phase = Phase.playing ∧
    gameOverWorld.gs.players_without_cards.card = 5 ∧
    process_tick gameOverWorld HumanDecision.pass 0
      = { gameOverWorld with
          gs := { gameOverWorld.gs with phase := Phase.game_over } } :=
  ⟨by decide, by decide,
   claim_C1 gameOverWorld HumanDecision.pass 0 (by decide) (by decide)⟩

/-! ## Claim C6: the trick owner's pass is always rejected, without mutation -/

/-- C6: while the current player's id equals `last_effective_player_id`, a
submitted pass is rejected and the world is returned unchanged. -/
theorem claim_C6 (w : World)
    (hown : w.ps.last_effective_player_id = some w.gs.current_player_id) :
    handle_human_decision w HumanDecision.pass = TurnResult.rejected w := by
  by_cases hg : w.gs.human_player_id < 0 ∨ 6 ≤ w.gs.human_player_id.toNat
  · simp [handle_human_decision, hg]
  · simp [handle_human_decision, hg, hown]

/-- Witness for C6: the human at seat 0 owns the trick and passes. -/
theorem claim_C6_witness :
    ownerWorld.ps.last_effective_player_id = some ownerWorld.gs.current_player_id ∧
    handle_human_decision ownerWorld HumanDecision.pass = TurnResult.rejected ownerWorld :=
  ⟨by decide, claim_C6 ownerWorld (by decide)⟩

/-! ## Claim C7: invalid plays are rejected atomically -/

/-- C7: a human play that asks for more cards of a rank than the hand holds
(or for no card at all), or whose selected cards cannot beat the standing
reference play, is rejected with the world — hand, reference play, pass
counter, effective player, current player and rankings — returned unchanged. -/
theorem claim_C7 (w : World) (rank : Rank) (count : Nat) :
    ((count = 0 ∨
        ((handAt w w.gs.human_player_id.toNat).filter
            fun c => c.rank == rank).length < count) →
      handle_human_decision w (HumanDecision.play rank count) = TurnResult.rejected w) ∧
    (∀ prev, w.ps.last_played_cards = some prev →
      can_beat (find_cards_by_rank (handAt w w.gs.human_player_id.toNat) rank count)
          (some prev) = false →
      handle_human_decision w (HumanDecision.play rank count) = TurnResult.rejected w) := by
  constructor
  · intro h
    by_cases hg : w.gs.human_player_id < 0 ∨ 6 ≤ w.gs.human_player_id.toNat
    · simp [handle_human_decision, hg]
    · rcases h with h | h
      · simp [handle_human_decision, hg, h]
      · by_cases hc : count = 0
        · simp [handle_human_decision, hg, hc]
        · simp [handle_human_decision, hg, hc, h]
  · intro prev hprev hcb
    by_cases hg : w.gs.human_player_id < 0 ∨ 6 ≤ w.gs.human_player_id.toNat
    · simp [handle_human_decision, hg]
    · by_cases hc : count = 0
      · simp [handle_human_decision, hg, hc]
      · by_cases hlt :
            ((handAt w w.gs.human_player_id.toNat).filter
              fun c => c.rank == rank).length < count
        · simp [handle_human_decision, hg, hc, hlt]
        · simp [handle_human_decision, hg, hc, hlt, hprev, hcb]

/-- Witness for C7: the human holds a three and a four against a played five;
asking for a queen is rejected for lack of cards, playing the three is rejected
by `can_beat`, and the world is unchanged both times. -/
theorem claim_C7_witness :
    handle_human_decision humanTurnWorld (HumanDecision.play Rank.QUEEN 1)
      = TurnResult.rejected humanTurnWorld ∧
    handle_human_decision humanTurnWorld (HumanDecision.play Rank.THREE 1)
      = TurnResult.rejected humanTurnWorld :=
  ⟨(claim_C7 humanTurnWorld Rank.QUEEN 1).1 (Or.inr (by decide)),
   (claim_C7 humanTurnWorld Rank.THREE 1).2 [heart5a] rfl (by decide)⟩

/-! ## Claim C5: accepted passes update the pass accounting identically on the
human and the AI path -/

lemma pass_update_spec (w : World) : pass_spec w (pass_update w) := by
  unfold pass_spec pass_update
  split
  next h => rw [if_pos h]; exact ⟨rfl, rfl⟩
  next h => rw [if_neg h]; exact ⟨rfl, rfl⟩

/-- C5: on every accepted pass — human or AI — `consecutive_passes` is
incremented; when the incremented count reaches `activePlayers - 1` (with
`activePlayers = 6` minus the finished players) the reference play is cleared
and the counter reset, and otherwise the reference play is left unchanged. -/
theorem claim_C5 (w : World) (pick : Nat) :
    (¬ (w.gs.human_player_id < 0 ∨ 6 ≤ w.gs.human_player_id.toNat) →
     (w.ps.last_effective_player_id == some w.gs.current_player_id) = false →
     ∃ w', handle_human_decision w HumanDecision.pass = TurnResult.accepted w' ∧
       pass_spec w w'.ps) ∧
    (w.gs.current_player_id < 6 →
     (handAt w w.gs.current_player_id).isEmpty = false →
     (find_all_beating_combinations (handAt w w.gs.current_player_id)
        w.ps.last_played_cards).isEmpty = true →
     handle_ai_turn w pick = advance_current { w with ps := pass_update w } ∧
     pass_spec w (pass_update w)) := by
  constructor
  · intro hvalid howner
    refine ⟨advance_current { w with ps := pass_update w }, ?_, pass_update_spec w⟩
    simp [handle_human_decision, hvalid, howner]
  · intro hc6 hne hcombos
    refine ⟨?_, pass_update_spec w⟩
    simp [handle_ai_turn, hc6, hne, hcombos]

/-- Witness for C5: an accepted human pass and a forced AI pass on concrete
worlds, both with fewer than `activePlayers - 1` accumulated passes. -/
theorem claim_C5_witness :
    (∃ w', handle_human_decision humanTurnWorld HumanDecision.pass
        = TurnResult.accepted w' ∧ pass_spec humanTurnWorld w'.ps) ∧
    (handle_ai_turn aiPassWorld 0
        = advance_current { aiPassWorld with ps := pass_update aiPassWorld } ∧
     pass_spec aiPassWorld (pass_update aiPassWorld)) :=
  ⟨(claim_C5 humanTurnWorld 0).1 (by decide) (by decide),
   (claim_C5 aiPassWorld 0).2 (by decide) (by decide) (by decide)⟩

/-! ## Rotation lemmas for the turn invariant

The next-player search and the pass counting only depend on the seat numbers
`0..5` and on which of them are finished, so the needed facts are decidable
statements over the 64 subsets of six seats. -/

lemma find_next_loop_lt_six (s : Finset Nat) :
    ∀ fuel next, next < 6 → find_next_loop s fuel next < 6 := by
  intro fuel
  induction fuel with
  | zero => intro next h; exact h
  | succ f ih =>
    intro next h
    rw [find_next_loop]
    split
    · exact ih _ (Nat.mod_lt _ (by omega))
    · exact h

lemma find_next_lt_six (s : Finset Nat) (c : Nat) :
    find_next_player_with_cards s c < 6 := by
  unfold find_next_player_with_cards
  split
  · split
    next i hfind =>
      have hmem := List.mem_of_find?_eq_some hfind
      exact List.mem_range.mp hmem
    next => exact Nat.mod_lt _ (by omega)
  · exact find_next_loop_lt_six s 6 _ (Nat.mod_lt _ (by omega))

set_option maxHeartbeats 4000000 in
/-- After a play at seat `p` (with at most four seats finished), the rotation
moves to a different, unfinished seat with no unfinished seat strictly between
`p` and it. -/
lemma find_next_after_play :
    ∀ s ∈ (Finset.range 6).powerset, ∀ p ∈ Finset.range 6,
      s.card ≤ 4 →
      (find_next_player_with_cards s p ≠ p ∧
       find_next_player_with_cards s p ∉ s ∧
       passedCount p (find_next_player_with_cards s p) s = 0) := by
  decide

set_option maxHeartbeats 4000000 in
/-- After a pass at seat `c` that does **not** reach the reset threshold, the
rotation stays short of the trick owner `e` and the count of active seats left
behind since `e` grows by exactly one. -/
lemma find_next_after_pass :
    ∀ s ∈ (Finset.range 6).powerset, ∀ e ∈ Finset.range 6, ∀ c ∈ Finset.range 6,
      e ≠ c → c ∉ s →
      ¬ (6 - s.card - 1 ≤ passedCount e c s + 1) →
      (find_next_player_with_cards s c ≠ e ∧
       find_next_player_with_cards s c ∉ s ∧
       passedCount e (find_next_player_with_cards s c) s = passedCount e c s + 1) := by
  decide

set_option maxHeartbeats 4000000 in
/-- With at most four seats finished, the rotation always lands on an
unfinished seat. -/
lemma find_next_not_finished :
    ∀ s ∈ (Finset.range 6).powerset, ∀ c ∈ Finset.range 6,
      s.card ≤ 4 → find_next_player_with_cards s c ∉ s := by
  decide

/-! ## Nonemptiness of the generated combinations -/

lemma addCardToGroups_ne_nil (groups : List (Rank × List Card)) (card : Card) :
    (if groups.any fun g => g.1 == card.rank then
      groups.map fun g => if g.1 == card.rank then (g.1, g.2 ++ [card]) else g
    else groups ++ [(card.rank, [card])]) ≠ [] := by
  cases groups with
  | nil => simp
  | cons g gs =>
    split
    · simp
    · simp

lemma foldl_groups_ne_nil (cards : List Card) :
    ∀ acc : List (Rank × List Card), acc ≠ [] →
      cards.foldl
        (fun groups card =>
          if groups.any fun g => g.1 == card.rank then
            groups.map fun g => if g.1 == card.rank then (g.1, g.2 ++ [card]) else g
          else groups ++ [(card.rank, [card])]) acc ≠ [] := by
  induction cards with
  | nil => intro acc h; exact h
  | cons c cs ih =>
    intro acc _
    exact ih _ (addCardToGroups_ne_nil acc c)

lemma groupByRank_ne_nil (hand : List Card) (h : hand ≠ []) :
    groupByRank hand ≠ [] := by
  cases hand with
  | nil => exact absurd rfl h
  | cons c cs =>
    show List.foldl _ _ (c :: cs) ≠ []
    rw [List.foldl_cons]
    exact foldl_groups_ne_nil cs _ (addCardToGroups_ne_nil [] c)

lemma foldl_groups_snd_ne_nil (cards : List Card) :
    ∀ acc : List (Rank × List Card), (∀ g ∈ acc, g.2 ≠ []) →
      ∀ g ∈ cards.foldl
        (fun groups card =>
          if groups.any fun g => g.1 == card.rank then
            groups.map fun g => if g.1 == card.rank then (g.1, g.2 ++ [card]) else g
          else groups ++ [(card.rank, [card])]) acc, g.2 ≠ [] := by
  induction cards with
  | nil => intro acc h; exact h
  | cons c cs ih =>
    intro acc hacc
    rw [List.foldl_cons]
    apply ih
    intro g hg
    split at hg
    · obtain ⟨g0, hg0, hEq⟩ := List.mem_map.mp hg
      subst hEq
      split
      · simp
      · exact hacc g0 hg0
    · rcases List.mem_append.mp hg with hmem | hmem
      · exact hacc g hmem
      · simp only [List.mem_singleton] at hmem
        subst hmem
        simp

lemma groupByRank_snd_ne_nil (hand : List Card) :
    ∀ g ∈ groupByRank hand, g.2 ≠ [] := by
  apply foldl_groups_snd_ne_nil
  intro g hg
  simp at hg

lemma find_all_valid_plays_ne_nil (hand : List Card) (h : hand ≠ []) :
    find_all_valid_plays hand ≠ [] := by
  unfold find_all_valid_plays
  rw [if_neg (by simpa [List.isEmpty_eq_true] using h)]
  obtain ⟨g, gs, hgs⟩ : ∃ g gs, groupByRank hand = g :: gs := by
    cases hg : groupByRank hand with
    | nil => exact absurd hg (groupByRank_ne_nil hand h)
    | cons g gs => exact ⟨g, gs, rfl⟩
  rw [hgs, List.flatMap_cons]
  have hg2 : g.2 ≠ [] := groupByRank_snd_ne_nil hand g (hgs ▸ List.mem_cons_self g gs)
  intro hnil
  rw [List.append_eq_nil] at hnil
  have := congrArg List.length hnil.1
  simp at this
  exact hg2 this

lemma take_succ_ne_nil (l : List Card) (k : Nat) (h : l ≠ []) :
    l.take (k + 1) ≠ [] := by
  cases l with
  | nil => exact absurd rfl h
  | cons a as => simp

lemma mem_find_all_ne_nil (hand : List Card) (t : Option (List Card)) :
    ∀ x ∈ find_all_beating_combinations hand t, x ≠ [] := by
  have hvalid : ∀ x ∈ find_all_valid_plays hand, x ≠ [] := by
    intro x hx
    unfold find_all_valid_plays at hx
    split at hx
    · simp at hx
    · obtain ⟨g, hg, hx'⟩ := List.mem_flatMap.mp hx
      obtain ⟨k, _, hEq⟩ := List.mem_map.mp hx'
      subst hEq
      exact take_succ_ne_nil _ _ (groupByRank_snd_ne_nil hand g hg)
  intro x hx
  match t with
  | none => exact hvalid x hx
  | some tl =>
    rw [show find_all_beating_combinations hand (some tl)
          = if tl.length = 0 then find_all_valid_plays hand
            else (groupByRank hand).flatMap fun g =>
              ((List.range g.2.length).map fun k => g.2.take (k + 1)).filter
                fun comb => can_beat comb (some tl) from rfl] at hx
    by_cases ht : tl.length = 0
    · rw [if_pos ht] at hx
      exact hvalid x hx
    · rw [if_neg ht] at hx
      obtain ⟨g, hg, hx'⟩ := List.mem_flatMap.mp hx
      obtain ⟨hy, _⟩ := List.mem_filter.mp hx'
      obtain ⟨k, _, hEq⟩ := List.mem_map.mp hy
      subst hEq
      exact take_succ_ne_nil _ _ (groupByRank_snd_ne_nil hand g hg)

lemma getD_mem_of_ne_nil (l : List (List Card)) (h : l ≠ []) (pick : Nat) :
    l.getD (pick % l.length) [] ∈ l := by
  have hlen : 0 < l.length := List.length_pos.mpr h
  have hlt : pick % l.length < l.length := Nat.mod_lt _ hlen
  rw [List.getD_eq_getElem?_getD, List.getElem?_eq_getElem hlt]
  exact List.getElem_mem hlt

/-! ## Structural lemmas about the world updates -/

lemma pass_update_last_eff (w : World) :
    (pass_update w).last_effective_player_id = w.ps.last_effective_player_id := by
  simp only [pass_update]
  split
  · rfl
  · rfl

lemma lt_length_of_handAt_ne_nil (w : World) (q : Nat) (h : handAt w q ≠ []) :
    q < w.hands.length := by
  by_contra hn
  apply h
  unfold handAt
  rw [List.getD_eq_getElem?_getD, List.getElem?_eq_none (by omega)]
  rfl

lemma getD_set_ne (l : List (List Card)) (pid q : Nat) (x : List Card) (h : pid ≠ q) :
    (l.set pid x).getD q [] = l.getD q [] := by
  simp [List.getD_eq_getElem?_getD, List.getElem?_set_ne h]

lemma getD_set_self (l : List (List Card)) (pid : Nat) (x : List Card) (h : pid < l.length) :
    (l.set pid x).getD pid [] = x := by
  simp [List.getD_eq_getElem?_getD, List.getElem?_set_self, h]

lemma find_cards_ne_nil (hand : List Card) (rank : Rank) (count : Nat)
    (hc : count ≠ 0) (hlen : count ≤ (hand.filter fun c => c.rank == rank).length) :
    find_cards_by_rank hand rank count ≠ [] := by
  unfold find_cards_by_rank
  intro hnil
  have := congrArg List.length hnil
  simp only [List.length_take, List.length_nil] at this
  omega

lemma apply_play_cp (w : World) (pid : Nat) (played : List Card) :
    (apply_play w pid played).ps.consecutive_passes = 0 := by
  simp only [apply_play]
  split
  · split
    · rfl
    · rfl
  · rfl

/-! ## Invariant preservation -/

lemma pass_inv (w : World) (hInv : Inv w) (hph : w.gs.phase = Phase.playing) :
    Inv (advance_current { w with ps := pass_update w }) := by
  obtain ⟨i1, i2, hpl⟩ := hInv
  obtain ⟨i3, i4, i5, i6⟩ := hpl hph
  refine ⟨find_next_lt_six _ _, i2, fun _ => ⟨?_, i4, ?_, ?_⟩⟩
  · exact find_next_not_finished _ (Finset.mem_powerset.mpr i2) _
      (Finset.mem_range.mpr i1) i4
  · exact i5
  · intro lp hlp
    by_cases hreset :
        6 - w.gs.players_without_cards.card - 1 ≤ w.ps.consecutive_passes + 1
    · have hnone : (pass_update w).last_played_cards = none := by
        unfold pass_update
        rw [if_pos hreset]
      rw [show (advance_current { w with ps := pass_update w }).ps.last_played_cards
            = (pass_update w).last_played_cards from rfl, hnone] at hlp
      exact absurd hlp (by simp)
    · have hlast : (pass_update w).last_played_cards = w.ps.last_played_cards := by
        unfold pass_update
        rw [if_neg hreset]
      have hcp : (pass_update w).consecutive_passes = w.ps.consecutive_passes + 1 := by
        unfold pass_update
        rw [if_neg hreset]
      rw [show (advance_current { w with ps := pass_update w }).ps.last_played_cards
            = (pass_update w).last_played_cards from rfl, hlast] at hlp
      obtain ⟨e, he, he6, hne, hcount⟩ := i6 lp hlp
      have hcond : ¬ (6 - w.gs.players_without_cards.card - 1 ≤
          passedCount e w.gs.current_player_id w.gs.players_without_cards + 1) := by
        rw [← hcount]
        exact hreset
      obtain ⟨hne', _, hcount'⟩ := find_next_after_pass _ (Finset.mem_powerset.mpr i2)
        e (Finset.mem_range.mpr he6) _ (Finset.mem_range.mpr i1) (Ne.symm hne) i3 hcond
      refine ⟨e, ?_, he6, hne', ?_⟩
      · rw [show (advance_current { w with ps := pass_update w }).ps.last_effective_player_id
              = (pass_update w).last_effective_player_id from rfl, pass_update_last_eff]
        exact he
      · rw [show (advance_current { w with ps := pass_update w }).ps.consecutive_passes
              = (pass_update w).consecutive_passes from rfl, hcp]
        rw [show (advance_current { w with ps := pass_update w }).gs.current_player_id
              = find_next_player_with_cards w.gs.players_without_cards
                  w.gs.current_player_id from rfl]
        rw [show (advance_current { w with ps := pass_update w }).gs.players_without_cards
              = w.gs.players_without_cards from rfl]
        rw [hcount', hcount]

lemma apply_play_inv (w : World) (played : List Card) (hInv : Inv w)
    (hph : w.gs.phase = Phase.playing) (hne : played ≠ []) :
    Inv (apply_play w w.gs.current_player_id played) := by
  obtain ⟨i1, i2, hpl⟩ := hInv
  obtain ⟨i3, i4, i5, i6⟩ := hpl hph
  have hpe : played.isEmpty = false := List.isEmpty_eq_false.mpr hne
  have hbound : w.gs.current_player_id < w.hands.length :=
    lt_length_of_handAt_ne_nil w _ (i5 _ i1 i3)
  simp only [apply_play, hpe, Bool.false_eq_true, if_false]
  by_cases hfin :
      (remove_cards (handAt w w.gs.current_player_id) played).isEmpty = true
  · rw [if_pos hfin]
    by_cases h5 : (insert w.gs.current_player_id w.gs.players_without_cards).card = 5
    · rw [if_pos h5]
      refine ⟨i1, ?_, fun hcontra => by simp at hcontra⟩
      exact Finset.insert_subset_iff.mpr ⟨Finset.mem_range.mpr i1, i2⟩
    · rw [if_neg h5]
      have hcard' :
          (insert w.gs.current_player_id w.gs.players_without_cards).card ≤ 4 := by
        rw [Finset.card_insert_of_not_mem i3] at h5 ⊢
        omega
      have hsub :
          insert w.gs.current_player_id w.gs.players_without_cards ⊆ Finset.range 6 :=
        Finset.insert_subset_iff.mpr ⟨Finset.mem_range.mpr i1, i2⟩
      refine ⟨find_next_lt_six _ _, hsub, fun _ => ⟨?_, hcard', ?_, ?_⟩⟩
      · exact find_next_not_finished _ (Finset.mem_powerset.mpr hsub) _
          (Finset.mem_range.mpr i1) hcard'
      · intro q hq hqn
        have hqc : w.gs.current_player_id ≠ q := by
          intro hEq
          exact hqn (hEq ▸ Finset.mem_insert_self _ _)
        have hqs : q ∉ w.gs.players_without_cards := by
          intro hmem
          exact hqn (Finset.mem_insert_of_mem hmem)
        show (w.hands.set w.gs.current_player_id _).getD q [] ≠ []
        rw [getD_set_ne _ _ _ _ hqc]
        exact i5 q hq hqs
      · intro lp hlp
        have hlp' : played = lp := by
          simpa [advance_current] using hlp
        obtain ⟨hnec, _, hcount0⟩ := find_next_after_play _
          (Finset.mem_powerset.mpr hsub) _ (Finset.mem_range.mpr i1) hcard'
        exact ⟨w.gs.current_player_id, rfl, i1, hnec, hcount0.symm ▸ rfl⟩
  · rw [if_neg hfin]
    refine ⟨find_next_lt_six _ _, i2, fun _ => ⟨?_, i4, ?_, ?_⟩⟩
    · exact find_next_not_finished _ (Finset.mem_powerset.mpr i2) _
        (Finset.mem_range.mpr i1) i4
    · intro q hq hqs
      show (w.hands.set w.gs.current_player_id _).getD q [] ≠ []
      by_cases hqc : w.gs.current_player_id = q
      · subst hqc
        rw [getD_set_self _ _ _ hbound]
        simpa [List.isEmpty_eq_true] using hfin
      · rw [getD_set_ne _ _ _ _ hqc]
        exact i5 q hq hqs
    · intro lp hlp
      have hlp' : played = lp := by
        simpa [advance_current] using hlp
      obtain ⟨hnec, _, hcount0⟩ := find_next_after_play _
        (Finset.mem_powerset.mpr i2) _ (Finset.mem_range.mpr i1) i4
      exact ⟨w.gs.current_player_id, rfl, i1, hnec, hcount0.symm ▸ rfl⟩

lemma handle_human_accepted (w w' : World) (d : HumanDecision)
    (h : handle_human_decision w d = TurnResult.accepted w') :
    w' = advance_current { w with ps := pass_update w } ∨
    ∃ played, played ≠ [] ∧ w' = apply_play w w.gs.human_player_id.toNat played := by
  by_cases hg : w.gs.human_player_id < 0 ∨ 6 ≤ w.gs.human_player_id.toNat
  · simp [handle_human_decision, hg] at h
  · cases d with
    | pass =>
      by_cases hown :
          (w.ps.last_effective_player_id == some w.gs.current_player_id) = true
      · simp [handle_human_decision, hg, hown] at h
      · simp [handle_human_decision, hg, hown] at h
        exact Or.inl h.symm
    | play rank count =>
      by_cases hc : count = 0
      · simp [handle_human_decision, hg, hc] at h
      · by_cases hlt :
            ((handAt w w.gs.human_player_id.toNat).filter
              fun c => c.rank == rank).length < count
        · simp [handle_human_decision, hg, hc, hlt] at h
        · have hpne : find_cards_by_rank (handAt w w.gs.human_player_id.toNat)
              rank count ≠ [] :=
            find_cards_ne_nil _ _ _ hc (Nat.le_of_not_lt hlt)
          cases hlast : w.ps.last_played_cards with
          | none =>
            simp [handle_human_decision, hg, hc, hlt, hlast] at h
            exact Or.inr ⟨_, hpne, h.symm⟩
          | some prev =>
            by_cases hcb :
                can_beat (find_cards_by_rank (handAt w w.gs.human_player_id.toNat)
                  rank count) (some prev) = true
            · simp [handle_human_decision, hg, hc, hlt, hlast, hcb] at h
              exact Or.inr ⟨_, hpne, h.symm⟩
            · simp [handle_human_decision, hg, hc, hlt, hlast, hcb] at h

lemma inv_init (w : World) (h : Init w) : Inv w := by
  obtain ⟨hph, hc, hw, _, hlast, _, _, hh⟩ := h
  refine ⟨hc, by rw [hw]; exact Finset.empty_subset _,
    fun _ => ⟨by rw [hw]; exact Finset.not_mem_empty _, by rw [hw]; simp,
      fun q hq _ => hh q hq, fun lp hlp => ?_⟩⟩
  rw [hlast] at hlp
  exact absurd hlp (by simp)

lemma inv_step (w w' : World) (hInv : Inv w) (hstep : Step w w') : Inv w' := by
  cases hstep with
  | game_over_check h1 h2 =>
    obtain ⟨i1, i2, _⟩ := hInv
    exact ⟨i1, i2, fun hcontra => by simp at hcontra⟩
  | human _ d h1 h2 h3 h4 =>
    rcases handle_human_accepted w w' d h4 with heq | ⟨played, hpne, heq⟩
    · rw [heq]
      exact pass_inv w hInv h1
    · have hid : w.gs.human_player_id.toNat = w.gs.current_player_id := by
        rw [← h3]
        simp
      rw [heq, hid]
      exact apply_play_inv w played hInv h1 hpne
  | ai pick h1 h2 h3 =>
    obtain ⟨i1, i2, hpl⟩ := hInv
    obtain ⟨i3, i4, i5, i6⟩ := hpl h1
    have hhand : handAt w w.gs.current_player_id ≠ [] := i5 _ i1 i3
    have hhe : (handAt w w.gs.current_player_id).isEmpty = false :=
      List.isEmpty_eq_false.mpr hhand
    by_cases hcombos :
        (find_all_beating_combinations (handAt w w.gs.current_player_id)
          w.ps.last_played_cards).isEmpty = true
    · have hrw : handle_ai_turn w pick = advance_current { w with ps := pass_update w } := by
        simp [handle_ai_turn, i1, hhe, hcombos]
      rw [hrw]
      exact pass_inv w ⟨i1, i2, hpl⟩ h1
    · have hcombos' :
          find_all_beating_combinations (handAt w w.gs.current_player_id)
            w.ps.last_played_cards ≠ [] := by
        rw [← List.isEmpty_eq_false]
        exact Bool.not_eq_true _ ▸ hcombos
      have hrw : handle_ai_turn w pick
          = apply_play w w.gs.current_player_id
              ((find_all_beating_combinations (handAt w w.gs.current_player_id)
                  w.ps.last_played_cards).getD
                (pick % (find_all_beating_combinations (handAt w w.gs.current_player_id)
                  w.ps.last_played_cards).length) []) := by
        simp [handle_ai_turn, i1, hhe, hcombos]
      rw [hrw]
      exact apply_play_inv w _ ⟨i1, i2, hpl⟩ h1
        (mem_find_all_ne_nil _ _ _ (getD_mem_of_ne_nil _ hcombos' pick))

lemma inv_reachable (w : World) (h : Reachable w) : Inv w := by
  obtain ⟨w0, hinit, hsteps⟩ := h
  induction hsteps with
  | refl => exact inv_init w0 hinit
  | tail _ hbc ih => exact inv_step _ _ ih hbc

/-! ## Claim C2: an AI owning the trick never passes -/

/-- C2: in every reachable playing-phase world whose current player owns the
trick (`current_player_id = last_effective_player_id`), the beating
combinations are nonempty — the AI handler therefore takes the play branch,
so the step is never a pass and `consecutive_passes` is not incremented (it is
reset to 0).  The AI path has no explicit owner guard; the pass-reset
accounting makes an owner's turn with a standing reference play unreachable. -/
theorem claim_C2 (w : World) (pick : Nat)
    (hreach : Reachable w)
    (hph : w.gs.phase = Phase.playing)
    (hown : w.ps.last_effective_player_id = some w.gs.current_player_id) :
    find_all_beating_combinations (handAt w w.gs.current_player_id)
      w.ps.last_played_cards ≠ [] ∧
    (handle_ai_turn w pick).ps.consecutive_passes = 0 := by
  obtain ⟨i1, i2, hpl⟩ := inv_reachable w hreach
  obtain ⟨i3, i4, i5, i6⟩ := hpl hph
  have hnone : w.ps.last_played_cards = none := by
    cases hl : w.ps.last_played_cards with
    | none => rfl
    | some lp =>
      obtain ⟨e, he, _, hne, _⟩ := i6 lp hl
      rw [hown] at he
      injection he with he'
      exact absurd he' hne
  have hhand : handAt w w.gs.current_player_id ≠ [] := i5 _ i1 i3
  have hcombos : find_all_beating_combinations (handAt w w.gs.current_player_id)
      w.ps.last_played_cards ≠ [] := by
    rw [hnone]
    exact find_all_valid_plays_ne_nil _ hhand
  refine ⟨hcombos, ?_⟩
  have hhe : (handAt w w.gs.current_player_id).isEmpty = false :=
    List.isEmpty_eq_false.mpr hhand
  have hce : (find_all_beating_combinations (handAt w w.gs.current_player_id)
      w.ps.last_played_cards).isEmpty = false :=
    List.isEmpty_eq_false.mpr hcombos
  have hrw : handle_ai_turn w pick
      = apply_play w w.gs.current_player_id
          ((find_all_beating_combinations (handAt w w.gs.current_player_id)
              w.ps.last_played_cards).getD
            (pick % (find_all_beating_combinations (handAt w w.gs.current_player_id)
              w.ps.last_played_cards).length) []) := by
    simp [handle_ai_turn, i1, hhe, hce]
  rw [hrw]
  exact apply_play_cp _ _ _

/-- Witness for C2: a concrete reachable world.  From the freshly dealt `W0`,
the AI at seat 0 opens with a five, seats 1-5 are forced to pass, the fifth
pass resets the trick, and the turn returns to seat 0, which still owns it. -/
theorem claim_C2_witness :
    W6.ps.last_effective_player_id = some W6.gs.current_player_id ∧
    find_all_beating_combinations (handAt W6 W6.gs.current_player_id)
      W6.ps.last_played_cards ≠ [] ∧
    (handle_ai_turn W6 0).ps.consecutive_passes = 0 := by
  have hreach : Reachable W6 := by
    refine ⟨W0, ⟨rfl, by decide, rfl, rfl, rfl, rfl, rfl, by decide⟩, ?_⟩
    have s0 : Step W0 W1 := Step.ai W0 0 (by decide) (by decide) (by decide)
    have s1 : Step W1 W2 := Step.ai W1 0 (by decide) (by decide) (by decide)
    have s2 : Step W2 W3 := Step.ai W2 0 (by decide) (by decide) (by decide)
    have s3 : Step W3 W4 := Step.ai W3 0 (by decide) (by decide) (by decide)
    have s4 : Step W4 W5 := Step.ai W4 0 (by decide) (by decide) (by decide)
    have s5 : Step W5 W6 := Step.ai W5 0 (by decide) (by decide) (by decide)
    exact Relation.ReflTransGen.head s0 (Relation.ReflTransGen.head s1
      (Relation.ReflTransGen.head s2 (Relation.ReflTransGen.head s3
        (Relation.ReflTransGen.head s4 (Relation.ReflTransGen.head s5
          Relation.ReflTransGen.refl)))))
  obtain ⟨hc, hcp⟩ := claim_C2 W6 0 hreach (by decide) (by decide)
  exact ⟨by decide, hc, hcp⟩

end Gouji

